import Mathlib

/-!
Verification of the near-duplicate scholarship detector
(`duplicate_utils/duplicate_checker.py`) against its specification.

The Python module is shallowly embedded here:
* `clean_title` — lowercasing, the two `re.sub` year-stripping passes
  (a `20\d\d` year optionally joined by a dash or slash to a second
  `2?\d` year, and bare `20\d\d`; leftmost non-overlapping), the
  `str.replace(phrase, '')` filler-word removals, whitespace collapsing
  (`\s+` → one space, modelled on the ASCII whitespace class),
  parenthetical removal (`\([^)]*\)`), and `strip()`.
* `similarity_score` — `difflib.SequenceMatcher(None, a, b).ratio()` as an
  exact rational `2·M / (|a| + |b|)`, where `M` is the total size of the
  matching blocks produced by `find_longest_match` recursion, including the
  autojunk "popular element" rule for strings of length ≥ 200.  Float
  thresholds (`0.85`, `0.7`, `0.8`, `0.6`) are modelled as the rationals
  they denote.
* `DuplicateChecker` with `is_duplicate`, `add_scholarship`, `get_stats`;
  the mutation of `duplicate_count` is made explicit by returning the
  updated checker.
Records are mappings with optional string fields; a missing field and an
empty string are both falsy in every use the module makes of them, so
fields are embedded as plain strings with `""` for "absent".
-/

/-- ASCII whitespace, modelling the characters the regex class `\s` and
`str.strip()` act on in the titles this module processes. -/
def isSpaceChar (c : Char) : Bool :=
  c = ' ' || c = '\t' || c = '\n' || c = '\r' || c = '\x0b' || c = '\x0c'

/-- Greedy match, at the head of the list, of the first year regex: `20`,
two digits, a `'-'` or `'/'`, then greedily an optional `'2'` and a digit.
Returns the length of the match (`7` when the optional `'2'` is consumed,
else `6`). -/
def matchYearRange : List Char → Option Nat
  | '2' :: '0' :: d1 :: d2 :: sep :: rest =>
    if d1.isDigit && d2.isDigit && (sep = '-' || sep = '/') then
      match rest with
      | '2' :: d3 :: _ => if d3.isDigit then some 7 else some 6
      | d3 :: _ => if d3.isDigit then some 6 else none
      | [] => none
    else none
  | _ => none

/-- Match of the regex `20\d{2}` at the head of the list. -/
def matchYear : List Char → Option Nat
  | '2' :: '0' :: d1 :: d2 :: _ =>
    if d1.isDigit && d2.isDigit then some 4 else none
  | _ => none

/-- `re.sub(pattern, '', s)`: scan left to right, delete each leftmost
non-overlapping match, continue after the deleted text.  `m l` returns the
length of a match of the pattern at the head of `l`, if any; `skip` is the
number of already-matched characters still to delete before scanning
resumes. -/
def subDeleteAux (m : List Char → Option Nat) : List Char → Nat → List Char
  | [], _ => []
  | _ :: rest, skip + 1 => subDeleteAux m rest skip
  | c :: rest, 0 =>
    match m (c :: rest) with
    | some k => subDeleteAux m rest (k - 1)
    | none => c :: subDeleteAux m rest 0

/-- `re.sub(pattern, '', s)` from a fresh scanning position. -/
def subDelete (m : List Char → Option Nat) (l : List Char) : List Char :=
  subDeleteAux m l 0

/-- `str.replace(q :: qs, '')`: delete each leftmost occurrence, continue
scanning after it (Python's `replace` never rescans text across a deletion
junction).  `skip` as in `subDeleteAux`. -/
def replaceDeleteAux (q : Char) (qs : List Char) : List Char → Nat → List Char
  | [], _ => []
  | _ :: rest, skip + 1 => replaceDeleteAux q qs rest skip
  | c :: rest, 0 =>
    if (q :: qs).isPrefixOf (c :: rest) then replaceDeleteAux q qs rest qs.length
    else c :: replaceDeleteAux q qs rest 0

/-- `str.replace(p, '')` for our (always non-empty) phrases. -/
def replaceDelete (p : List Char) (l : List Char) : List Char :=
  match p with
  | [] => l
  | q :: qs => replaceDeleteAux q qs l 0

/-- `re.sub(r'\s+', ' ', s)`: each maximal whitespace run becomes one
space.  The flag records whether the scanner is inside a run whose single
replacement space has already been emitted. -/
def collapseWsAux : List Char → Bool → List Char
  | [], _ => []
  | c :: rest, true =>
    if isSpaceChar c then collapseWsAux rest true
    else c :: collapseWsAux rest false
  | c :: rest, false =>
    if isSpaceChar c then ' ' :: collapseWsAux rest true
    else c :: collapseWsAux rest false

/-- `re.sub(r'\s+', ' ', s)` from a fresh scanning position. -/
def collapseWs (l : List Char) : List Char :=
  collapseWsAux l false

/-- `re.sub` with pattern "an opening paren, then non-close-paren
characters, then a closing paren", replacement `''`: delete each leftmost
parenthesised group that has a closing `')'`; an unclosed `'('` is kept
(the pattern cannot match there).  The flag records being inside a group
that is being deleted, entered only when a closing `')'` exists ahead. -/
def removeParensAux : List Char → Bool → List Char
  | [], _ => []
  | c :: rest, true =>
    if c = ')' then removeParensAux rest false
    else removeParensAux rest true
  | c :: rest, false =>
    if c = '(' ∧ rest.contains ')' then removeParensAux rest true
    else c :: removeParensAux rest false

/-- Parenthetical removal from a fresh scanning position. -/
def removeParens (l : List Char) : List Char :=
  removeParensAux l false

/-- `str.strip()` on the ASCII whitespace class. -/
def stripWs (l : List Char) : List Char :=
  ((l.dropWhile isSpaceChar).reverse.dropWhile isSpaceChar).reverse

/-- The phrase list of `clean_title`, in source order. -/
def phrasesToRemove : List (List Char) :=
  ["fully funded".toList, "apply now".toList, "scholarship".toList,
   "scholarships".toList, "in".toList, "at".toList, "for".toList,
   "the".toList, "funded".toList, "full".toList, "free".toList]

/-- The body of `clean_title` on character lists: lowercase, strip year
patterns, remove the filler phrases in order, collapse whitespace, remove
parenthesised groups, strip. -/
def cleanTitleL (l : List Char) : List Char :=
  stripWs (removeParens (collapseWs
    (phrasesToRemove.foldl (fun s p => replaceDelete p s)
      (subDelete matchYear (subDelete matchYearRange (l.map Char.toLower))))))

/-- `clean_title(title)`.  `if not title: return ""` is the empty-string
guard. -/
def clean_title (title : String) : String :=
  if title = "" then "" else (cleanTitleL title.toList).asString

/-!
`difflib.SequenceMatcher(None, a, b)`.  With `isjunk = None` the junk set
`bjunk` is empty, so the two junk-extension loops of `find_longest_match`
never fire and `isbjunk` is constantly false in the non-junk extension
loops; they are therefore omitted from the embedding.  The autojunk rule
still applies: when `len(b) >= 200`, elements occurring more than
`len(b) // 100 + 1` times are dropped from the index `b2j` (they remain
reachable by the extension loops).
-/

/-- `b2j[c]`: the ascending list of positions of `c` in `b`, empty when
`c` is "popular" (autojunk). -/
def b2j (b : List Char) (c : Char) : List Nat :=
  let ps := (b.enum.filter (fun p => p.2 = c)).map Prod.fst
  if 200 ≤ b.length ∧ b.length / 100 + 1 < ps.length then [] else ps

/-- The inner loop of `find_longest_match` for one row `i`: walk the
ascending positions `js` of `a[i]` in `b`, keeping the dictionary
`newj2len` (as a function, default `0`) and the best block so far.
`j2len (j-1)` plays `j2len.get(j-1, 0)` (reading `j = 0` looks up the
never-written key `-1`, i.e. `0`). -/
def flmRow (j2len : Nat → Nat) (i blo bhi : Nat) :
    List Nat → (Nat → Nat) → Nat × Nat × Nat → (Nat → Nat) × (Nat × Nat × Nat)
  | [], acc, best => (acc, best)
  | j :: rest, acc, best =>
    if j < blo then flmRow j2len i blo bhi rest acc best
    else if bhi ≤ j then (acc, best)
    else
      let k := if j = 0 then 1 else j2len (j - 1) + 1
      let acc' := fun x => if x = j then k else acc x
      let best' := if best.2.2 < k then (i + 1 - k, j + 1 - k, k) else best
      flmRow j2len i blo bhi rest acc' best'

/-- The outer loop of `find_longest_match`: one `flmRow` per row index,
threading `j2len` and the best block. -/
def flmRows (a b : List Char) (blo bhi : Nat) :
    List Nat → (Nat → Nat) → Nat × Nat × Nat → Nat × Nat × Nat
  | [], _, best => best
  | i :: rest, j2len, best =>
    let step := flmRow j2len i blo bhi (b2j b (a.getD i ' ')) (fun _ => 0) best
    flmRows a b blo bhi rest step.1 step.2

/-- The left extension loop of `find_longest_match` (with `isbjunk`
constantly false): while `alo < i`, `blo < j` and `a[i-1] == b[j-1]`,
shift the block one to the left and grow it. -/
def extLeft (a b : List Char) (alo blo : Nat) : Nat → Nat → Nat → Nat × Nat × Nat
  | 0, j, k => (0, j, k)
  | i + 1, j, k =>
    if alo < i + 1 ∧ blo < j ∧ a.getD i ' ' = b.getD (j - 1) ' ' then
      extLeft a b alo blo i (j - 1) (k + 1)
    else (i + 1, j, k)

/-- The right extension loop of `find_longest_match` (with `isbjunk`
constantly false): while `i+k < ahi`, `j+k < bhi` and `a[i+k] == b[j+k]`,
grow the block; returns the extended size.  The fuel is initialised to
`ahi - (i + k)` which stays in lockstep with the loop guard, so the
fuel-exhausted branch coincides with a false guard. -/
def extRightAux (a b : List Char) (ahi bhi i j : Nat) : Nat → Nat → Nat
  | 0, k => k
  | fuel + 1, k =>
    if i + k < ahi ∧ j + k < bhi ∧ a.getD (i + k) ' ' = b.getD (j + k) ' ' then
      extRightAux a b ahi bhi i j fuel (k + 1)
    else k

/-- The right extension loop with its fuel instantiated. -/
def extRight (a b : List Char) (ahi bhi i j k : Nat) : Nat :=
  extRightAux a b ahi bhi i j (ahi - (i + k)) k

/-- `SequenceMatcher.find_longest_match(alo, ahi, blo, bhi)`: the dynamic
programming pass over rows `alo..ahi-1`, then the two extension loops. -/
def find_longest_match (a b : List Char) (alo ahi blo bhi : Nat) : Nat × Nat × Nat :=
  let d := flmRows a b blo bhi (List.range' alo (ahi - alo)) (fun _ => 0) (alo, blo, 0)
  let e := extLeft a b alo blo d.1 d.2.1 d.2.2
  (e.1, e.2.1, extRight a b ahi bhi e.1 e.2.1 e.2.2)

/-- The total size of the matching blocks of `get_matching_blocks`,
computed by the same recursion on subranges (the queue order and the
final merge of adjacent blocks do not change the total).  `fuel` only
serves termination; every block found is non-empty and splits the range,
so `a.length + b.length + 1` is always enough. -/
def matchedTotal (a b : List Char) (alo ahi blo bhi fuel : Nat) : Nat :=
  match fuel with
  | 0 => 0
  | fuel + 1 =>
    let m := find_longest_match a b alo ahi blo bhi
    if m.2.2 = 0 then 0
    else
      m.2.2 + matchedTotal a b alo m.1 blo m.2.1 fuel
            + matchedTotal a b (m.1 + m.2.2) ahi (m.2.1 + m.2.2) bhi fuel

/-- `SequenceMatcher.ratio()` as an exact rational: `2·M / (|a| + |b|)`,
and `1` when both sequences are empty (`_calculate_ratio`). -/
def smRatio (a b : List Char) : ℚ :=
  if a.length + b.length = 0 then 1
  else 2 * (matchedTotal a b 0 a.length 0 b.length (a.length + b.length + 1) : ℚ)
         / (a.length + b.length)

/-- `similarity_score(a, b)`: `0` when either string is falsy, else the
`SequenceMatcher` ratio. -/
def similarity_score (a b : String) : ℚ :=
  if a = "" || b = "" then 0 else smRatio a.toList b.toList

/-- A scraped scholarship record.  The module reads the fields with
`.get`, under truthiness guards, so a missing field, `None`, and `""`
behave identically; all four are embedded as strings with `""` for
"absent". -/
structure Scholarship where
  title : String
  deadline : String
  hostCountry : String
  hostUniversity : String
deriving DecidableEq, Repr

/-- The `DuplicateChecker` state: the accepted list `self.scholarships`,
`self.similarity_threshold`, and `self.duplicate_count`. -/
structure DuplicateChecker where
  scholarships : List Scholarship
  similarity_threshold : ℚ
  duplicate_count : Nat
deriving DecidableEq, Repr

/-- `DuplicateChecker(similarity_threshold)`; the Python default is
`0.85 = 17/20`. -/
def mkChecker (threshold : ℚ) : DuplicateChecker :=
  { scholarships := [], similarity_threshold := threshold, duplicate_count := 0 }

/-- The body of the second (`fuzzy`) loop of `is_duplicate` for one
accepted record `e` against the candidate `s`: skip unless the cleaned
titles reach the threshold, then test the three corroborating signals in
source order. -/
def fuzzyMatch (threshold : ℚ) (s e : Scholarship) : Bool :=
  if similarity_score (clean_title s.title) (clean_title e.title) < threshold then
    false
  else if s.deadline ≠ "" ∧ e.deadline ≠ "" ∧ s.deadline = e.deadline then
    true
  else if s.hostUniversity ≠ "" ∧ e.hostUniversity ≠ "" ∧
      7/10 < similarity_score s.hostUniversity e.hostUniversity then
    true
  else if s.hostCountry ≠ "" ∧ e.hostCountry ≠ "" ∧
      s.deadline ≠ "" ∧ e.deadline ≠ "" ∧
      4/5 < similarity_score s.hostCountry e.hostCountry ∧
      3/5 < similarity_score s.deadline e.deadline then
    true
  else false

/-- `is_duplicate(scholarship)`.  The Boolean result is paired with the
updated state, because every `return True` is preceded by
`self.duplicate_count += 1`. -/
def DuplicateChecker.is_duplicate (c : DuplicateChecker) (s : Scholarship) :
    Bool × DuplicateChecker :=
  let title := clean_title s.title
  if title = "" then (false, c)
  else if c.scholarships.any (fun e => clean_title e.title = title) then
    (true, { c with duplicate_count := c.duplicate_count + 1 })
  else if c.scholarships.any (fun e => fuzzyMatch c.similarity_threshold s e) then
    (true, { c with duplicate_count := c.duplicate_count + 1 })
  else (false, c)

/-- `add_scholarship(scholarship)`: append unless a duplicate; `True`
means added. -/
def DuplicateChecker.add_scholarship (c : DuplicateChecker) (s : Scholarship) :
    Bool × DuplicateChecker :=
  let r := c.is_duplicate s
  if r.1 then (false, r.2)
  else (true, { r.2 with scholarships := r.2.scholarships ++ [s] })

/-- The result of `get_stats()`. -/
structure Stats where
  total_processed : Nat
  duplicates_found : Nat
  unique_scholarships : Nat
deriving DecidableEq, Repr

/-- `get_stats()`. -/
def DuplicateChecker.get_stats (c : DuplicateChecker) : Stats :=
  { total_processed := c.scholarships.length + c.duplicate_count
    duplicates_found := c.duplicate_count
    unique_scholarships := c.scholarships.length }

/-- Submit a list of records through `add_scholarship` in order, returning
the final state and the list of results. -/
def runAdds (c : DuplicateChecker) : List Scholarship → DuplicateChecker × List Bool
  | [] => (c, [])
  | s :: ss =>
    let r := c.add_scholarship s
    let rest := runAdds r.2 ss
    (rest.1, r.1 :: rest.2)

/-- The spec's corroborating signal, stated from its words: equal
non-empty raw deadlines, or non-empty host universities with similarity
strictly above `0.70`, or non-empty host countries and deadlines with
country similarity strictly above `0.80` and deadline similarity strictly
above `0.60`.  Used to compare the spec's description of the fuzzy pass
with `fuzzyMatch`, the embedding of the code. -/
def corroborates (s e : Scholarship) : Prop :=
  (s.deadline ≠ "" ∧ e.deadline ≠ "" ∧ s.deadline = e.deadline) ∨
  (s.hostUniversity ≠ "" ∧ e.hostUniversity ≠ "" ∧
    7/10 < similarity_score s.hostUniversity e.hostUniversity) ∨
  (s.hostCountry ≠ "" ∧ e.hostCountry ≠ "" ∧
    s.deadline ≠ "" ∧ e.deadline ≠ "" ∧
    4/5 < similarity_score s.hostCountry e.hostCountry ∧
    3/5 < similarity_score s.deadline e.deadline)

instance (s e : Scholarship) : Decidable (corroborates s e) := by
  unfold corroborates
  infer_instance

/-- A "4-digit year substring" in the sense of the spec: `'2'`, `'0'`,
then two digits, somewhere in the list. -/
def containsYear : List Char → Bool
  | c0 :: c1 :: c2 :: c3 :: rest =>
    (c0 = '2' && c1 = '0' && c2.isDigit && c3.isDigit) ||
      containsYear (c1 :: c2 :: c3 :: rest)
  | _ => false

/-- The words of a character list: the maximal space-free non-empty
chunks, accumulated in `cur` (reversed). -/
def wordsOfL : List Char → List Char → List (List Char)
  | [], cur => if cur = [] then [] else [cur.reverse]
  | c :: rest, cur =>
    if c = ' ' then
      if cur = [] then wordsOfL rest []
      else cur.reverse :: wordsOfL rest []
    else wordsOfL rest (c :: cur)

/-- The words of a title: the non-empty chunks between spaces. -/
def wordsOf (s : String) : List String :=
  (wordsOfL s.toList []).map List.asString

/-! ### Helper lemmas about the checker's state effects -/

theorem is_duplicate_scholarships_eq (c : DuplicateChecker) (s : Scholarship) :
    (c.is_duplicate s).2.scholarships = c.scholarships := by
  simp only [DuplicateChecker.is_duplicate]
  split_ifs <;> rfl

theorem is_duplicate_threshold_eq (c : DuplicateChecker) (s : Scholarship) :
    (c.is_duplicate s).2.similarity_threshold = c.similarity_threshold := by
  simp only [DuplicateChecker.is_duplicate]
  split_ifs <;> rfl

theorem is_duplicate_count_eq (c : DuplicateChecker) (s : Scholarship) :
    (c.is_duplicate s).2.duplicate_count
      = c.duplicate_count + (if (c.is_duplicate s).1 then 1 else 0) := by
  simp only [DuplicateChecker.is_duplicate]
  split_ifs <;> simp_all

theorem is_duplicate_congr (c c' : DuplicateChecker) (s : Scholarship)
    (h1 : c.scholarships = c'.scholarships)
    (h2 : c.similarity_threshold = c'.similarity_threshold) :
    (c.is_duplicate s).1 = (c'.is_duplicate s).1 := by
  simp only [DuplicateChecker.is_duplicate, h1, h2]
  split_ifs <;> rfl

theorem add_scholarship_fst (c : DuplicateChecker) (s : Scholarship) :
    (c.add_scholarship s).1 = !(c.is_duplicate s).1 := by
  simp only [DuplicateChecker.add_scholarship]
  cases h : (c.is_duplicate s).1 <;> simp [h]

theorem add_scholarship_scholarships (c : DuplicateChecker) (s : Scholarship) :
    (c.add_scholarship s).2.scholarships
      = if (c.is_duplicate s).1 then c.scholarships
        else c.scholarships ++ [s] := by
  simp only [DuplicateChecker.add_scholarship]
  cases h : (c.is_duplicate s).1 <;> simp [h, is_duplicate_scholarships_eq]

theorem add_scholarship_count (c : DuplicateChecker) (s : Scholarship) :
    (c.add_scholarship s).2.duplicate_count
      = c.duplicate_count + (if (c.is_duplicate s).1 then 1 else 0) := by
  simp only [DuplicateChecker.add_scholarship]
  have := is_duplicate_count_eq c s
  cases h : (c.is_duplicate s).1 <;> simp [h] at this ⊢ <;> simp [this]

theorem add_scholarship_threshold (c : DuplicateChecker) (s : Scholarship) :
    (c.add_scholarship s).2.similarity_threshold = c.similarity_threshold := by
  simp only [DuplicateChecker.add_scholarship]
  cases h : (c.is_duplicate s).1 <;> simp [h, is_duplicate_threshold_eq]

theorem add_fresh (θ : ℚ) (s : Scholarship) :
    (mkChecker θ).add_scholarship s
      = (true, { scholarships := [s], similarity_threshold := θ,
                 duplicate_count := 0 }) := by
  simp only [DuplicateChecker.add_scholarship, DuplicateChecker.is_duplicate, mkChecker]
  split_ifs <;> simp_all

/-- Evaluation of `similarity_score` at non-empty concrete strings: once
the matched total and lengths are computed, the score is the literal
fraction. -/
theorem similarity_eval (x y : String) (lx ly M : Nat)
    (hx : x ≠ "") (hy : y ≠ "")
    (hlx : x.toList.length = lx) (hly : y.toList.length = ly)
    (hsum : lx + ly ≠ 0)
    (hM : matchedTotal x.toList y.toList 0 lx 0 ly (lx + ly + 1) = M) :
    similarity_score x y = 2 * (M : ℚ) / ((lx : ℚ) + (ly : ℚ)) := by
  simp only [similarity_score, smRatio, hlx, hly, hM]
  simp [hx, hy, hsum]

/-- The fuzzy pass per accepted record, as an equivalence: it fires iff
the normalized-title similarity is at least the threshold and some
corroborating signal holds. -/
theorem fuzzyMatch_eq_true_iff (θ : ℚ) (s e : Scholarship) :
    fuzzyMatch θ s e = true ↔
      (θ ≤ similarity_score (clean_title s.title) (clean_title e.title) ∧
        corroborates s e) := by
  unfold fuzzyMatch corroborates
  split_ifs with h1 h2 h3 h4
  · simp only [Bool.false_eq_true, false_iff]
    intro hc
    exact absurd hc.1 (not_le.mpr h1)
  · simp only [true_iff]
    exact ⟨not_lt.mp h1, Or.inl h2⟩
  · simp only [true_iff]
    exact ⟨not_lt.mp h1, Or.inr (Or.inl h3)⟩
  · simp only [true_iff]
    exact ⟨not_lt.mp h1, Or.inr (Or.inr h4)⟩
  · simp only [Bool.false_eq_true, false_iff]
    intro hc
    rcases hc.2 with hd | hu | hcd
    · exact h2 hd
    · exact h3 hu
    · exact h4 hcd

/-- A two-record run from a fresh checker keeps the first record and keeps
the second exactly when it is not judged a duplicate of the first. -/
theorem runAdds_two (θ : ℚ) (r1 r2 : Scholarship) :
    (runAdds (mkChecker θ) [r1, r2]).1.scholarships
      = (if ((⟨[r1], θ, 0⟩ : DuplicateChecker).is_duplicate r2).1
         then [r1] else [r1, r2]) := by
  simp only [runAdds]
  rw [add_fresh]
  rw [add_scholarship_scholarships]
  simp

/-! ### C2, C3 -/

/-- C2: for any two records whose titles normalize to the same non-empty
string, the first submission to a fresh checker is accepted and the second
is rejected by the exact-title pass, whatever its other fields are. -/
theorem exact_title_duplicate_rejected (θ : ℚ) (r1 r2 : Scholarship)
    (heq : clean_title r1.title = clean_title r2.title)
    (hne : clean_title r2.title ≠ "") :
    ((mkChecker θ).add_scholarship r1).1 = true ∧
    (((mkChecker θ).add_scholarship r1).2.add_scholarship r2).1 = false := by
  rw [add_fresh]
  refine ⟨rfl, ?_⟩
  simp only [DuplicateChecker.add_scholarship, DuplicateChecker.is_duplicate]
  simp [hne, heq]

/-- C2 witness: two concrete records with the same title and different
other fields. -/
theorem exact_title_duplicate_rejected_witness :
    (clean_title "Same Prize" = clean_title "Same Prize" ∧
      clean_title "Same Prize" ≠ "") ∧
    (((mkChecker (17/20)).add_scholarship
        ⟨"Same Prize", "March 15, 2025", "Germany", "Berlin University"⟩).1 = true ∧
      ((((mkChecker (17/20)).add_scholarship
          ⟨"Same Prize", "March 15, 2025", "Germany", "Berlin University"⟩).2).add_scholarship
        ⟨"Same Prize", "May 30, 2025", "France", "Sorbonne University"⟩).1 = false) :=
  ⟨⟨rfl, by decide⟩,
    exact_title_duplicate_rejected (17/20)
      ⟨"Same Prize", "March 15, 2025", "Germany", "Berlin University"⟩
      ⟨"Same Prize", "May 30, 2025", "France", "Sorbonne University"⟩
      rfl (by decide)⟩

/-- C3: a record whose title normalizes to the empty string is always
accepted and appended, whatever the checker's state. -/
theorem empty_title_always_accepted (c : DuplicateChecker) (s : Scholarship)
    (h : clean_title s.title = "") :
    c.add_scholarship s
      = (true, { c with scholarships := c.scholarships ++ [s] }) := by
  simp only [DuplicateChecker.add_scholarship, DuplicateChecker.is_duplicate]
  simp [h]

/-- C3 witness: `"Scholarship 2025"` normalizes to `""` and is accepted
into a non-empty checker. -/
theorem empty_title_always_accepted_witness :
    clean_title "Scholarship 2025" = "" ∧
    DuplicateChecker.add_scholarship
        ⟨[⟨"Prior Award", "June 1, 2026", "Kenya", "UoN"⟩], 17/20, 4⟩
        ⟨"Scholarship 2025", "May 1, 2025", "France", "X"⟩
      = (true, { (⟨[⟨"Prior Award", "June 1, 2026", "Kenya", "UoN"⟩], 17/20, 4⟩ : DuplicateChecker) with
                 scholarships := [⟨"Prior Award", "June 1, 2026", "Kenya", "UoN"⟩] ++
                   [⟨"Scholarship 2025", "May 1, 2025", "France", "X"⟩] }) :=
  ⟨by decide,
    empty_title_always_accepted
      ⟨[⟨"Prior Award", "June 1, 2026", "Kenya", "UoN"⟩], 17/20, 4⟩
      ⟨"Scholarship 2025", "May 1, 2025", "France", "X"⟩ (by decide)⟩

/-! ### C9, C10, C6 -/

/-- C9: `is_duplicate` is not a pure query: a `True` result increments the
duplicate counter by exactly one and a `False` result leaves it unchanged;
the accepted list is never touched, so a repeated direct call returns the
same verdict and `get_stats` moves accordingly. -/
theorem is_duplicate_mutates_counter (c : DuplicateChecker) (s : Scholarship) :
    (c.is_duplicate s).2.scholarships = c.scholarships ∧
    (c.is_duplicate s).2.duplicate_count
      = c.duplicate_count + (if (c.is_duplicate s).1 then 1 else 0) ∧
    ((c.is_duplicate s).2.is_duplicate s).1 = (c.is_duplicate s).1 ∧
    ((c.is_duplicate s).2.get_stats).total_processed
      = c.get_stats.total_processed + (if (c.is_duplicate s).1 then 1 else 0) ∧
    ((c.is_duplicate s).2.get_stats).duplicates_found
      = c.get_stats.duplicates_found + (if (c.is_duplicate s).1 then 1 else 0) ∧
    ((c.is_duplicate s).2.get_stats).unique_scholarships
      = c.get_stats.unique_scholarships := by
  have h1 := is_duplicate_scholarships_eq c s
  have h2 := is_duplicate_count_eq c s
  have h3 := is_duplicate_threshold_eq c s
  refine ⟨h1, h2, is_duplicate_congr _ _ s h1 h3, ?_, ?_, ?_⟩ <;>
    cases hb : (c.is_duplicate s).1 <;>
      simp [DuplicateChecker.get_stats, h1, hb] at h2 ⊢ <;> omega

/-- C10: filler-word removal is substring-based: `"china"` loses its
inner `"in"` and `"chfora"` its inner `"for"`, so two titles sharing no
word normalize identically. -/
theorem substring_removal_no_common_word :
    clean_title "china" = "cha" ∧
    clean_title "chfora" = clean_title "china" ∧
    "china" ≠ "chfora" ∧
    ∀ w ∈ wordsOf "china", w ∉ wordsOf "chfora" := by
  refine ⟨by decide, by decide, by decide, by decide⟩

/-- C6 (amended): the two year-stripping passes remove year tokens such as
`2025/26`; on the spec's example the normalized title is `"daad germany"`,
which contains no 4-digit year substring. -/
theorem year_stripping_daad_example :
    clean_title "DAAD Scholarship 2025/26 in Germany" = "daad germany" ∧
    containsYear (clean_title "DAAD Scholarship 2025/26 in Germany").toList
      = false := by
  refine ⟨by decide, by decide⟩

/-- C6 counterexample: the passes are leftmost non-overlapping and never
rescan, so deleting a year can splice the remaining digits into a new
4-digit year: `"22025025"` normalizes to `"2025"`. -/
theorem year_stripping_counterexample :
    clean_title "22025025" = "2025" ∧
    containsYear (clean_title "22025025").toList = true := by
  refine ⟨by decide, by decide⟩

/-! ### C7 -/

/-- C7 (amended): in a two-record run the first-submitted record is always
retained; the second is also retained exactly when it is not classified a
duplicate of the first.  (The duplicate relation is not symmetric, so the
reversed order may retain both records.) -/
theorem first_seen_wins_conditional (θ : ℚ) (r1 r2 : Scholarship) :
    (((mkChecker θ).add_scholarship r1).2).scholarships = [r1] ∧
    ((((mkChecker θ).add_scholarship r1).2).add_scholarship r2).2.scholarships
      = (if ((((mkChecker θ).add_scholarship r1).2).is_duplicate r2).1
         then [r1] else [r1, r2]) := by
  rw [add_fresh]
  refine ⟨rfl, ?_⟩
  rw [add_scholarship_scholarships]
  simp

/-- C7 counterexample: two records that are duplicates in one submission
order but not in the other, because the university-similarity ratio is
asymmetric (`3/4` one way, `1/2` the other, against the strict `0.7`
threshold).  In the reversed order both records are retained, refuting
"exactly one of them is retained in either order". -/
theorem order_reversal_keeps_both_counterexample :
    ((runAdds (mkChecker (17/20))
        [⟨"abcdegjklmopq", "", "", "babba"⟩,
         ⟨"abcdegjklmopqs", "", "", "aba"⟩]).1.scholarships
      = [⟨"abcdegjklmopq", "", "", "babba"⟩]) ∧
    ((runAdds (mkChecker (17/20))
        [⟨"abcdegjklmopqs", "", "", "aba"⟩,
         ⟨"abcdegjklmopq", "", "", "babba"⟩]).1.scholarships
      = [⟨"abcdegjklmopqs", "", "", "aba"⟩,
         ⟨"abcdegjklmopq", "", "", "babba"⟩]) := by
  have htitles : similarity_score "abcdegjklmopqs" "abcdegjklmopq"
      = 2 * (13 : ℚ) / ((14 : ℚ) + (13 : ℚ)) :=
    similarity_eval _ _ 14 13 13 (by decide) (by decide) (by decide) (by decide)
      (by decide) (by decide)
  have htitles' : similarity_score "abcdegjklmopq" "abcdegjklmopqs"
      = 2 * (13 : ℚ) / ((13 : ℚ) + (14 : ℚ)) :=
    similarity_eval _ _ 13 14 13 (by decide) (by decide) (by decide) (by decide)
      (by decide) (by decide)
  have huni : similarity_score "aba" "babba" = 2 * (3 : ℚ) / ((3 : ℚ) + (5 : ℚ)) :=
    similarity_eval _ _ 3 5 3 (by decide) (by decide) (by decide) (by decide)
      (by decide) (by decide)
  have huni' : similarity_score "babba" "aba" = 2 * (2 : ℚ) / ((5 : ℚ) + (3 : ℚ)) :=
    similarity_eval _ _ 5 3 2 (by decide) (by decide) (by decide) (by decide)
      (by decide) (by decide)
  have hfuzBA : fuzzyMatch (17/20) ⟨"abcdegjklmopqs", "", "", "aba"⟩
      ⟨"abcdegjklmopq", "", "", "babba"⟩ = true := by
    rw [fuzzyMatch_eq_true_iff]
    refine ⟨?_, Or.inr (Or.inl ⟨by decide, by decide, ?_⟩)⟩
    · show (17 : ℚ)/20 ≤ similarity_score (clean_title "abcdegjklmopqs")
        (clean_title "abcdegjklmopq")
      rw [show clean_title "abcdegjklmopqs" = "abcdegjklmopqs" from by decide,
        show clean_title "abcdegjklmopq" = "abcdegjklmopq" from by decide, htitles]
      norm_num
    · show (7 : ℚ)/10 < similarity_score "aba" "babba"
      rw [huni]
      norm_num
  have hfuzAB : fuzzyMatch (17/20) ⟨"abcdegjklmopq", "", "", "babba"⟩
      ⟨"abcdegjklmopqs", "", "", "aba"⟩ = false := by
    rw [Bool.eq_false_iff, Ne, fuzzyMatch_eq_true_iff]
    rintro ⟨-, hd | hu | hcd⟩
    · exact hd.1 rfl
    · have h2 : (7 : ℚ)/10 < similarity_score "babba" "aba" := hu.2.2
      rw [huni'] at h2
      norm_num at h2
    · exact hcd.1 rfl
  have hdupAB : ((⟨[⟨"abcdegjklmopq", "", "", "babba"⟩], 17/20, 0⟩ :
      DuplicateChecker).is_duplicate ⟨"abcdegjklmopqs", "", "", "aba"⟩).1 = true := by
    simp only [DuplicateChecker.is_duplicate, List.any_cons, List.any_nil]
    rw [if_neg (by decide), if_neg (by decide)]
    simp [hfuzBA]
  have hdupBA : ((⟨[⟨"abcdegjklmopqs", "", "", "aba"⟩], 17/20, 0⟩ :
      DuplicateChecker).is_duplicate ⟨"abcdegjklmopq", "", "", "babba"⟩).1 = false := by
    simp only [DuplicateChecker.is_duplicate, List.any_cons, List.any_nil]
    rw [if_neg (by decide), if_neg (by decide)]
    simp [hfuzAB]
  refine ⟨?_, ?_⟩
  · rw [runAdds_two, hdupAB]
    simp
  · rw [runAdds_two, hdupBA]
    simp

/-! ### C1 -/

/-- C1 (amended): for a candidate with non-empty normalized title, the
fuzzy pass classifies it as a duplicate of an accepted record if and only
if the normalized-title similarity is at least (`≥`, not strictly above)
the threshold and one of the corroborating signals holds.  The code skips
a record only when `similarity_score(...) < self.similarity_threshold`,
so a similarity exactly equal to the threshold proceeds to corroboration. -/
theorem fuzzy_pass_iff_ge_threshold (θ : ℚ) (s e : Scholarship)
    (h : clean_title s.title ≠ "") :
    fuzzyMatch θ s e = true ↔
      (θ ≤ similarity_score (clean_title s.title) (clean_title e.title) ∧
        corroborates s e) := by
  unfold fuzzyMatch corroborates
  split_ifs with h1 h2 h3 h4
  · simp only [Bool.false_eq_true, false_iff]
    intro hc
    exact absurd hc.1 (not_le.mpr h1)
  · simp only [true_iff]
    exact ⟨not_lt.mp h1, Or.inl h2⟩
  · simp only [true_iff]
    exact ⟨not_lt.mp h1, Or.inr (Or.inl h3)⟩
  · simp only [true_iff]
    exact ⟨not_lt.mp h1, Or.inr (Or.inr h4)⟩
  · simp only [Bool.false_eq_true, false_iff]
    intro hc
    rcases hc.2 with hd | hu | hcd
    · exact h2 hd
    · exact h3 hu
    · exact h4 hcd

/-- C1 witness: the amended equivalence instantiated at two concrete
records whose normalized-title similarity is exactly the default
threshold `17/20` and whose deadlines agree. -/
theorem fuzzy_pass_iff_ge_threshold_witness :
    clean_title "abcdefghijklmnopqxxx" ≠ "" ∧
    (fuzzyMatch (17/20)
        ⟨"abcdefghijklmnopqxxx", "March 15, 2025", "", ""⟩
        ⟨"abcdefghijklmnopqyyy", "March 15, 2025", "", ""⟩ = true ↔
      (17/20 ≤ similarity_score
          (clean_title (Scholarship.title ⟨"abcdefghijklmnopqxxx", "March 15, 2025", "", ""⟩))
          (clean_title (Scholarship.title ⟨"abcdefghijklmnopqyyy", "March 15, 2025", "", ""⟩)) ∧
        corroborates ⟨"abcdefghijklmnopqxxx", "March 15, 2025", "", ""⟩
          ⟨"abcdefghijklmnopqyyy", "March 15, 2025", "", ""⟩)) :=
  ⟨by decide,
    fuzzy_pass_iff_ge_threshold (17/20)
      ⟨"abcdefghijklmnopqxxx", "March 15, 2025", "", ""⟩
      ⟨"abcdefghijklmnopqyyy", "March 15, 2025", "", ""⟩ (by decide)⟩

/-- C1 counterexample: the claim's strict reading fails on the code.  At
normalized-title similarity exactly `0.85` (`17/20`, not strictly above
the default threshold) with equal non-empty deadlines, the fuzzy pass
still classifies the candidate as a duplicate. -/
theorem fuzzy_pass_at_threshold_counterexample :
    fuzzyMatch (17/20)
        ⟨"abcdefghijklmnopqxxx", "March 15, 2025", "", ""⟩
        ⟨"abcdefghijklmnopqyyy", "March 15, 2025", "", ""⟩ = true ∧
    similarity_score (clean_title "abcdefghijklmnopqxxx")
        (clean_title "abcdefghijklmnopqyyy") = 17/20 ∧
    ¬(17/20 < similarity_score (clean_title "abcdefghijklmnopqxxx")
        (clean_title "abcdefghijklmnopqyyy")) := by
  have hx : clean_title "abcdefghijklmnopqxxx" = "abcdefghijklmnopqxxx" := by decide
  have hy : clean_title "abcdefghijklmnopqyyy" = "abcdefghijklmnopqyyy" := by decide
  have hS : similarity_score "abcdefghijklmnopqxxx" "abcdefghijklmnopqyyy"
      = 2 * (17 : ℚ) / ((20 : ℚ) + (20 : ℚ)) :=
    similarity_eval _ _ 20 20 17 (by decide) (by decide) (by decide) (by decide)
      (by decide) (by decide)
  refine ⟨?_, ?_, ?_⟩
  · rw [fuzzyMatch_eq_true_iff]
    refine ⟨?_, Or.inl ⟨by decide, by decide, rfl⟩⟩
    show (17 : ℚ)/20 ≤ similarity_score
      (clean_title "abcdefghijklmnopqxxx") (clean_title "abcdefghijklmnopqyyy")
    rw [hx, hy, hS]
    norm_num
  · rw [hx, hy, hS]
    norm_num
  · rw [hx, hy, hS]
    norm_num

/-! ### C4 counterexample, C8 counterexample -/

/-- C4 counterexample: the `SequenceMatcher` ratio is not symmetric.  For
`"ab"` against `"bacb"` the matching blocks total 2 one way (`2/3`) but
only 1 the other way (`1/3`), because the leftmost-longest tie-break picks
different blocks and the recursion then sees different remainders. -/
theorem similarity_not_symmetric_counterexample :
    similarity_score "ab" "bacb" ≠ similarity_score "bacb" "ab" := by
  rw [similarity_eval "ab" "bacb" 2 4 2 (by decide) (by decide) (by decide)
      (by decide) (by decide) (by decide),
    similarity_eval "bacb" "ab" 4 2 1 (by decide) (by decide) (by decide)
      (by decide) (by decide) (by decide)]
  norm_num

/-- C8 counterexample: normalization is not shrink-stable.  `"iinn"`
normalizes to `"in"` (the deleted inner `"in"` splices a new one at the
junction, which a single pass never rescans), and renormalizing `"in"`
deletes it, strictly shrinking the title again. -/
theorem renormalize_shrinks_counterexample :
    clean_title "iinn" = "in" ∧
    clean_title (clean_title "iinn") = "" ∧
    (clean_title (clean_title "iinn")).length < (clean_title "iinn").length := by
  refine ⟨by decide, by decide, by decide⟩

/-! ### C5 -/

theorem count_true_add_count_false (l : List Bool) :
    l.count true + l.count false = l.length := by
  induction l with
  | nil => simp
  | cons b t ih => cases b <;> simp [List.count_cons] <;> omega

theorem runAdds_state (ss : List Scholarship) :
    ∀ c : DuplicateChecker,
      (runAdds c ss).1.scholarships.length
        = c.scholarships.length + (runAdds c ss).2.count true ∧
      (runAdds c ss).1.duplicate_count
        = c.duplicate_count + (runAdds c ss).2.count false ∧
      (runAdds c ss).2.length = ss.length := by
  induction ss with
  | nil => intro c; simp [runAdds]
  | cons s t ih =>
    intro c
    obtain ⟨ih1, ih2, ih3⟩ := ih (c.add_scholarship s).2
    have hs := add_scholarship_scholarships c s
    have hc := add_scholarship_count c s
    have hf := add_scholarship_fst c s
    simp only [runAdds]
    cases hb : (c.is_duplicate s).1 <;> simp only [hb] at hs hc hf <;>
      refine ⟨?_, ?_, ?_⟩ <;>
        simp [ih1, ih2, ih3, hs, hc, hf, List.count_cons] <;> omega

/-- C5: over any submission sequence from a fresh checker, `get_stats`
reports `total_processed` = number of submissions, `duplicates_found` =
number of rejected (`False`) submissions, `unique_scholarships` = number
of accepted (`True`) submissions (so `total_processed` =
`len(AcceptedSet) + duplicate_count` by construction); and on the spec's
three-record scenario the run returns `[True, False, True]` with final
stats `(3, 1, 2)`. -/
theorem stats_count_submissions :
    (∀ (θ : ℚ) (ss : List Scholarship),
      ((runAdds (mkChecker θ) ss).1.get_stats).total_processed = ss.length ∧
      ((runAdds (mkChecker θ) ss).1.get_stats).duplicates_found
        = (runAdds (mkChecker θ) ss).2.count false ∧
      ((runAdds (mkChecker θ) ss).1.get_stats).unique_scholarships
        = (runAdds (mkChecker θ) ss).2.count true) ∧
    (runAdds (mkChecker (17/20))
      [⟨"DAAD Scholarship in Germany 2025 (Fully Funded)", "March 15, 2025", "", "Berlin University"⟩,
       ⟨"Fully Funded DAAD Germany Scholarship (Apply Now)", "March 15, 2025", "", "Berlin University"⟩,
       ⟨"Erasmus Mundus Scholarship 2025 in France", "May 30, 2025", "", "Sorbonne University"⟩]).2
      = [true, false, true] ∧
    ((runAdds (mkChecker (17/20))
      [⟨"DAAD Scholarship in Germany 2025 (Fully Funded)", "March 15, 2025", "", "Berlin University"⟩,
       ⟨"Fully Funded DAAD Germany Scholarship (Apply Now)", "March 15, 2025", "", "Berlin University"⟩,
       ⟨"Erasmus Mundus Scholarship 2025 in France", "May 30, 2025", "", "Sorbonne University"⟩]).1.get_stats)
      = ⟨3, 1, 2⟩ := by
  have hfuz3 : fuzzyMatch (17/20)
      ⟨"Erasmus Mundus Scholarship 2025 in France", "May 30, 2025", "", "Sorbonne University"⟩
      ⟨"DAAD Scholarship in Germany 2025 (Fully Funded)", "March 15, 2025", "", "Berlin University"⟩
      = false := by
    rw [Bool.eq_false_iff, Ne, fuzzyMatch_eq_true_iff]
    rintro ⟨hle, -⟩
    have h2 : (17 : ℚ)/20 ≤ similarity_score "erasmus mundus france" "daad germany" := by
      rw [show clean_title "Erasmus Mundus Scholarship 2025 in France"
            = "erasmus mundus france" from by decide,
          show clean_title "DAAD Scholarship in Germany 2025 (Fully Funded)"
            = "daad germany" from by decide] at hle
      exact hle
    rw [similarity_eval _ _ 21 12 5 (by decide) (by decide) (by decide)
        (by decide) (by decide) (by decide)] at h2
    norm_num at h2
  have hd2 : (DuplicateChecker.is_duplicate
      ⟨[⟨"DAAD Scholarship in Germany 2025 (Fully Funded)", "March 15, 2025", "", "Berlin University"⟩], 17/20, 0⟩
      ⟨"Fully Funded DAAD Germany Scholarship (Apply Now)", "March 15, 2025", "", "Berlin University"⟩)
      = (true, ⟨[⟨"DAAD Scholarship in Germany 2025 (Fully Funded)", "March 15, 2025", "", "Berlin University"⟩], 17/20, 1⟩) := by
    simp only [DuplicateChecker.is_duplicate, List.any_cons, List.any_nil]
    rw [if_neg (by decide), if_pos (by decide)]
  have hd3 : (DuplicateChecker.is_duplicate
      ⟨[⟨"DAAD Scholarship in Germany 2025 (Fully Funded)", "March 15, 2025", "", "Berlin University"⟩], 17/20, 1⟩
      ⟨"Erasmus Mundus Scholarship 2025 in France", "May 30, 2025", "", "Sorbonne University"⟩)
      = (false, ⟨[⟨"DAAD Scholarship in Germany 2025 (Fully Funded)", "March 15, 2025", "", "Berlin University"⟩], 17/20, 1⟩) := by
    simp only [DuplicateChecker.is_duplicate, List.any_cons, List.any_nil]
    rw [if_neg (by decide), if_neg (by decide)]
    simp [hfuz3]
  have hrun : (runAdds (mkChecker (17/20))
      [⟨"DAAD Scholarship in Germany 2025 (Fully Funded)", "March 15, 2025", "", "Berlin University"⟩,
       ⟨"Fully Funded DAAD Germany Scholarship (Apply Now)", "March 15, 2025", "", "Berlin University"⟩,
       ⟨"Erasmus Mundus Scholarship 2025 in France", "May 30, 2025", "", "Sorbonne University"⟩])
      = (⟨[⟨"DAAD Scholarship in Germany 2025 (Fully Funded)", "March 15, 2025", "", "Berlin University"⟩,
           ⟨"Erasmus Mundus Scholarship 2025 in France", "May 30, 2025", "", "Sorbonne University"⟩], 17/20, 1⟩,
         [true, false, true]) := by
    simp only [runAdds]
    rw [add_fresh]
    simp only [DuplicateChecker.add_scholarship]
    rw [hd2]
    simp [hd3]
  refine ⟨?_, ?_, ?_⟩
  · intro θ ss
    obtain ⟨h1, h2, h3⟩ := runAdds_state ss (mkChecker θ)
    have hc := count_true_add_count_false (runAdds (mkChecker θ) ss).2
    have e1 : (runAdds (mkChecker θ) ss).1.scholarships.length
        = (runAdds (mkChecker θ) ss).2.count true := by
      simpa [mkChecker] using h1
    have e2 : (runAdds (mkChecker θ) ss).1.duplicate_count
        = (runAdds (mkChecker θ) ss).2.count false := by
      simpa [mkChecker] using h2
    simp only [DuplicateChecker.get_stats]
    refine ⟨?_, ?_, ?_⟩ <;> omega
  · rw [hrun]
  · rw [hrun]
    decide

/-! ### C8: normalization never lengthens a title -/

theorem subDeleteAux_length (m : List Char → Option Nat) :
    ∀ (l : List Char) (skip : Nat), (subDeleteAux m l skip).length ≤ l.length := by
  intro l
  induction l with
  | nil => intro skip; simp [subDeleteAux]
  | cons c rest ih =>
    intro skip
    cases skip with
    | succ n =>
      simp only [subDeleteAux, List.length_cons]
      have := ih n
      omega
    | zero =>
      simp only [subDeleteAux, List.length_cons]
      cases hm : m (c :: rest) with
      | some k =>
        have := ih (k - 1)
        simp only [List.length_cons]
        omega
      | none =>
        have := ih 0
        simp only [List.length_cons]
        omega

theorem replaceDeleteAux_length (q : Char) (qs : List Char) :
    ∀ (l : List Char) (skip : Nat), (replaceDeleteAux q qs l skip).length ≤ l.length := by
  intro l
  induction l with
  | nil => intro skip; simp [replaceDeleteAux]
  | cons c rest ih =>
    intro skip
    cases skip with
    | succ n =>
      simp only [replaceDeleteAux, List.length_cons]
      have := ih n
      omega
    | zero =>
      simp only [replaceDeleteAux, List.length_cons]
      split
      · have := ih qs.length
        omega
      · have := ih 0
        simp only [List.length_cons]
        omega

theorem replaceDelete_length (p : List Char) (l : List Char) :
    (replaceDelete p l).length ≤ l.length := by
  cases p with
  | nil => simp [replaceDelete]
  | cons q qs => exact replaceDeleteAux_length q qs l 0

theorem foldl_replaceDelete_length :
    ∀ (ps : List (List Char)) (l : List Char),
      (ps.foldl (fun s p => replaceDelete p s) l).length ≤ l.length := by
  intro ps
  induction ps with
  | nil => intro l; simp
  | cons p pt ih =>
    intro l
    calc (List.foldl (fun s p => replaceDelete p s) (replaceDelete p l) pt).length
        ≤ (replaceDelete p l).length := ih (replaceDelete p l)
      _ ≤ l.length := replaceDelete_length p l

theorem collapseWsAux_length :
    ∀ (l : List Char) (flag : Bool), (collapseWsAux l flag).length ≤ l.length := by
  intro l
  induction l with
  | nil => intro flag; simp [collapseWsAux]
  | cons c rest ih =>
    intro flag
    cases flag <;> simp only [collapseWsAux, List.length_cons] <;> split <;>
      · have h1 := ih true
        have h2 := ih false
        try simp only [List.length_cons]
        omega

theorem removeParensAux_length :
    ∀ (l : List Char) (flag : Bool), (removeParensAux l flag).length ≤ l.length := by
  intro l
  induction l with
  | nil => intro flag; simp [removeParensAux]
  | cons c rest ih =>
    intro flag
    cases flag <;> simp only [removeParensAux, List.length_cons] <;> split <;>
      · have h1 := ih true
        have h2 := ih false
        try simp only [List.length_cons]
        omega

theorem dropWhileChar_length_le (p : Char → Bool) (l : List Char) :
    (l.dropWhile p).length ≤ l.length := by
  induction l with
  | nil => simp
  | cons c rest ih =>
    rw [List.dropWhile_cons]
    split
    · simp only [List.length_cons]
      omega
    · simp

theorem stripWs_length (l : List Char) : (stripWs l).length ≤ l.length := by
  unfold stripWs
  calc (((l.dropWhile isSpaceChar).reverse.dropWhile isSpaceChar).reverse).length
      = ((l.dropWhile isSpaceChar).reverse.dropWhile isSpaceChar).length := by
        rw [List.length_reverse]
    _ ≤ (l.dropWhile isSpaceChar).reverse.length :=
        dropWhileChar_length_le _ _
    _ = (l.dropWhile isSpaceChar).length := by rw [List.length_reverse]
    _ ≤ l.length := dropWhileChar_length_le _ _

theorem cleanTitleL_length (l : List Char) : (cleanTitleL l).length ≤ l.length := by
  unfold cleanTitleL
  calc (stripWs (removeParens (collapseWs
          (phrasesToRemove.foldl (fun s p => replaceDelete p s)
            (subDelete matchYear (subDelete matchYearRange (l.map Char.toLower))))))).length
      ≤ (removeParens (collapseWs
          (phrasesToRemove.foldl (fun s p => replaceDelete p s)
            (subDelete matchYear (subDelete matchYearRange (l.map Char.toLower)))))).length :=
        stripWs_length _
    _ ≤ (collapseWs
          (phrasesToRemove.foldl (fun s p => replaceDelete p s)
            (subDelete matchYear (subDelete matchYearRange (l.map Char.toLower))))).length :=
        removeParensAux_length _ _
    _ ≤ (phrasesToRemove.foldl (fun s p => replaceDelete p s)
          (subDelete matchYear (subDelete matchYearRange (l.map Char.toLower)))).length :=
        collapseWsAux_length _ _
    _ ≤ (subDelete matchYear (subDelete matchYearRange (l.map Char.toLower))).length :=
        foldl_replaceDelete_length _ _
    _ ≤ (subDelete matchYearRange (l.map Char.toLower)).length :=
        subDeleteAux_length _ _ _
    _ ≤ (l.map Char.toLower).length := subDeleteAux_length _ _ _
    _ = l.length := List.length_map _ _

theorem clean_title_length_le (s : String) : (clean_title s).length ≤ s.length := by
  unfold clean_title
  split_ifs with h
  · simp [h]
  · exact cleanTitleL_length s.toList

/-- C8 (amended): normalization never lengthens a title, so re-normalizing
an already-normalized title never grows it — but it may shrink it further
(see the counterexample), so "does not remove any additional tokens" is
false while "never grows" holds. -/
theorem renormalize_never_grows (x : String) :
    (clean_title (clean_title x)).length ≤ (clean_title x).length :=
  clean_title_length_le (clean_title x)

/-! ### C4: the ratio is deterministic and lies in `[0, 1]`

The bound `M ≤ min (ahi - alo) (bhi - blo)` follows from an invariant of
`find_longest_match`: the returned block `(i, j, k)` satisfies `alo ≤ i`,
`blo ≤ j`, `i + k ≤ ahi`, `j + k ≤ bhi`.  Inside the dynamic programming
pass, every `j2len` entry is bounded by the number of processed rows and
by the number of in-range columns, which bounds the block size. -/

theorem flmRow_inv (j2len : Nat → Nat) (i blo bhi alo : Nat) (halo : alo ≤ i)
    (hj : ∀ x, j2len x = 0 ∨ (j2len x + alo ≤ i ∧ j2len x + blo ≤ x + 1)) :
    ∀ (js : List Nat) (acc : Nat → Nat) (best : Nat × Nat × Nat),
      (∀ x, acc x = 0 ∨ (acc x + alo ≤ i + 1 ∧ acc x + blo ≤ x + 1)) →
      ((best.2.2 = 0 ∧ best.1 = alo ∧ best.2.1 = blo) ∨
        (alo ≤ best.1 ∧ blo ≤ best.2.1 ∧
          best.1 + best.2.2 ≤ i + 1 ∧ best.2.1 + best.2.2 ≤ bhi)) →
      (∀ x, (flmRow j2len i blo bhi js acc best).1 x = 0 ∨
          ((flmRow j2len i blo bhi js acc best).1 x + alo ≤ i + 1 ∧
            (flmRow j2len i blo bhi js acc best).1 x + blo ≤ x + 1)) ∧
      (((flmRow j2len i blo bhi js acc best).2.2.2 = 0 ∧
          (flmRow j2len i blo bhi js acc best).2.1 = alo ∧
          (flmRow j2len i blo bhi js acc best).2.2.1 = blo) ∨
        (alo ≤ (flmRow j2len i blo bhi js acc best).2.1 ∧
          blo ≤ (flmRow j2len i blo bhi js acc best).2.2.1 ∧
          (flmRow j2len i blo bhi js acc best).2.1
            + (flmRow j2len i blo bhi js acc best).2.2.2 ≤ i + 1 ∧
          (flmRow j2len i blo bhi js acc best).2.2.1
            + (flmRow j2len i blo bhi js acc best).2.2.2 ≤ bhi)) := by
  intro js
  induction js with
  | nil =>
    intro acc best hacc hbest
    exact ⟨hacc, hbest⟩
  | cons j rest ih =>
    intro acc best hacc hbest
    by_cases hlo : j < blo
    · simp only [flmRow, if_pos hlo]
      exact ih acc best hacc hbest
    · by_cases hhi : bhi ≤ j
      · simp only [flmRow, if_neg hlo, if_pos hhi]
        exact ⟨hacc, hbest⟩
      · simp only [flmRow, if_neg hlo, if_neg hhi]
        have hkb : (if j = 0 then 1 else j2len (j - 1) + 1) + alo ≤ i + 1 ∧
            (if j = 0 then 1 else j2len (j - 1) + 1) + blo ≤ j + 1 ∧
            1 ≤ (if j = 0 then 1 else j2len (j - 1) + 1) := by
          by_cases hj0 : j = 0
          · simp only [hj0, if_pos]
            subst hj0
            omega
          · simp only [if_neg hj0]
            rcases hj (j - 1) with hz | ⟨ha, hb⟩
            · rw [hz]
              omega
            · omega
        refine ih _ _ ?_ ?_
        · intro x
          by_cases hx : x = j
          · right
            simp [hx]
            omega
          · simp only [if_neg hx]
            exact hacc x
        · set k := if j = 0 then 1 else j2len (j - 1) + 1 with hk
          by_cases hlt : best.2.2 < k
          · simp only [if_pos hlt]
            right
            refine ⟨?_, ?_, ?_, ?_⟩ <;> omega
          · simp only [if_neg hlt]
            exact hbest

theorem flmRows_inv (a b : List Char) (alo blo bhi : Nat) :
    ∀ (n i : Nat) (j2len : Nat → Nat) (best : Nat × Nat × Nat),
      alo ≤ i →
      (∀ x, j2len x = 0 ∨ (j2len x + alo ≤ i ∧ j2len x + blo ≤ x + 1)) →
      ((best.2.2 = 0 ∧ best.1 = alo ∧ best.2.1 = blo) ∨
        (alo ≤ best.1 ∧ blo ≤ best.2.1 ∧
          best.1 + best.2.2 ≤ i ∧ best.2.1 + best.2.2 ≤ bhi)) →
      (((flmRows a b blo bhi (List.range' i n) j2len best).2.2 = 0 ∧
          (flmRows a b blo bhi (List.range' i n) j2len best).1 = alo ∧
          (flmRows a b blo bhi (List.range' i n) j2len best).2.1 = blo) ∨
        (alo ≤ (flmRows a b blo bhi (List.range' i n) j2len best).1 ∧
          blo ≤ (flmRows a b blo bhi (List.range' i n) j2len best).2.1 ∧
          (flmRows a b blo bhi (List.range' i n) j2len best).1
            + (flmRows a b blo bhi (List.range' i n) j2len best).2.2 ≤ i + n ∧
          (flmRows a b blo bhi (List.range' i n) j2len best).2.1
            + (flmRows a b blo bhi (List.range' i n) j2len best).2.2 ≤ bhi)) := by
  intro n
  induction n with
  | zero =>
    intro i j2len best _ _ hbest
    rw [show List.range' i 0 = [] from rfl]
    simp only [flmRows]
    rcases hbest with h | h
    · exact Or.inl h
    · right
      omega
  | succ n ih =>
    intro i j2len best halo hj hbest
    rw [show List.range' i (n + 1) = i :: List.range' (i + 1) n from rfl]
    simp only [flmRows]
    have hstep := flmRow_inv j2len i blo bhi alo halo hj
      (b2j b (a.getD i ' ')) (fun _ => 0) best
      (fun x => Or.inl rfl)
      (by rcases hbest with h | h
          · exact Or.inl h
          · right
            omega)
    have hfin := ih (i + 1)
      (flmRow j2len i blo bhi (b2j b (a.getD i ' ')) (fun _ => 0) best).1
      (flmRow j2len i blo bhi (b2j b (a.getD i ' ')) (fun _ => 0) best).2
      (by omega) hstep.1 hstep.2
    rcases hfin with h | h
    · exact Or.inl h
    · right
      omega

theorem extLeft_inv (a b : List Char) (alo blo : Nat) :
    ∀ (i j k : Nat), alo ≤ i → blo ≤ j →
      (extLeft a b alo blo i j k).1 + (extLeft a b alo blo i j k).2.2 = i + k ∧
      (extLeft a b alo blo i j k).2.1 + (extLeft a b alo blo i j k).2.2 = j + k ∧
      alo ≤ (extLeft a b alo blo i j k).1 ∧
      blo ≤ (extLeft a b alo blo i j k).2.1 := by
  intro i
  induction i with
  | zero =>
    intro j k hi hj
    show (0, j, k).1 + (0, j, k).2.2 = 0 + k ∧ (0, j, k).2.1 + (0, j, k).2.2 = j + k ∧
      alo ≤ (0, j, k).1 ∧ blo ≤ (0, j, k).2.1
    refine ⟨rfl, rfl, ?_, hj⟩
    omega
  | succ i ih =>
    intro j k hi hj
    simp only [extLeft]
    split
    · next hcond =>
      have := ih (j - 1) (k + 1) (by omega) (by omega)
      omega
    · dsimp only
      omega

theorem extRightAux_inv (a b : List Char) (ahi bhi i j : Nat) :
    ∀ (fuel k : Nat),
      k ≤ extRightAux a b ahi bhi i j fuel k ∧
      (i + k ≤ ahi → i + extRightAux a b ahi bhi i j fuel k ≤ ahi) ∧
      (j + k ≤ bhi → j + extRightAux a b ahi bhi i j fuel k ≤ bhi) := by
  intro fuel
  induction fuel with
  | zero =>
    intro k
    simp only [extRightAux]
    omega
  | succ fuel ih =>
    intro k
    simp only [extRightAux]
    split
    · next hcond =>
      have := ih (k + 1)
      omega
    · omega

theorem flm_bounds (a b : List Char) (alo ahi blo bhi : Nat)
    (h1 : alo ≤ ahi) (h2 : blo ≤ bhi) :
    alo ≤ (find_longest_match a b alo ahi blo bhi).1 ∧
    blo ≤ (find_longest_match a b alo ahi blo bhi).2.1 ∧
    (find_longest_match a b alo ahi blo bhi).1
      + (find_longest_match a b alo ahi blo bhi).2.2 ≤ ahi ∧
    (find_longest_match a b alo ahi blo bhi).2.1
      + (find_longest_match a b alo ahi blo bhi).2.2 ≤ bhi := by
  have hd := flmRows_inv a b alo blo bhi (ahi - alo) alo (fun _ => 0) (alo, blo, 0)
    (le_refl alo) (fun x => Or.inl rfl) (Or.inl ⟨rfl, rfl, rfl⟩)
  set d := flmRows a b blo bhi (List.range' alo (ahi - alo)) (fun _ => 0) (alo, blo, 0)
    with hdef
  have hd1 : alo ≤ d.1 ∧ blo ≤ d.2.1 ∧ d.1 + d.2.2 ≤ ahi ∧ d.2.1 + d.2.2 ≤ bhi := by
    rcases hd with ⟨hz, ha, hb⟩ | ⟨ha, hb, hc, hd'⟩ <;> omega
  have he := extLeft_inv a b alo blo d.1 d.2.1 d.2.2 hd1.1 hd1.2.1
  set e := extLeft a b alo blo d.1 d.2.1 d.2.2 with hedef
  have hr := extRightAux_inv a b ahi bhi e.1 e.2.1 (ahi - (e.1 + e.2.2)) e.2.2
  simp only [find_longest_match, extRight, ← hdef, ← hedef]
  refine ⟨?_, ?_, ?_, ?_⟩ <;> omega

theorem matchedTotal_le :
    ∀ (fuel : Nat) (a b : List Char) (alo ahi blo bhi : Nat),
      alo ≤ ahi → blo ≤ bhi →
      matchedTotal a b alo ahi blo bhi fuel ≤ min (ahi - alo) (bhi - blo) := by
  intro fuel
  induction fuel with
  | zero =>
    intro a b alo ahi blo bhi _ _
    simp [matchedTotal]
  | succ n ih =>
    intro a b alo ahi blo bhi h1 h2
    simp only [matchedTotal]
    set m := find_longest_match a b alo ahi blo bhi with hm
    by_cases hz : m.2.2 = 0
    · rw [if_pos hz]
      omega
    · rw [if_neg hz]
      have hb := flm_bounds a b alo ahi blo bhi h1 h2
      rw [← hm] at hb
      have hL := ih a b alo m.1 blo m.2.1 (by omega) (by omega)
      have hR := ih a b (m.1 + m.2.2) ahi (m.2.1 + m.2.2) bhi (by omega) (by omega)
      omega

/-- C4 (amended): `similarity_score` is a pure function of its two
arguments (determinism is immediate from the functional embedding), and
its value always lies in `[0, 1]`: the matching blocks are disjoint in
both strings, so `2·M ≤ |a| + |b|`.  Symmetry, however, fails — see the
counterexample. -/
theorem similarity_deterministic_range (a b : String) :
    0 ≤ similarity_score a b ∧ similarity_score a b ≤ 1 := by
  unfold similarity_score smRatio
  split_ifs with h1 h2
  · norm_num
  · norm_num
  · have hM := matchedTotal_le (a.toList.length + b.toList.length + 1)
      a.toList b.toList 0 a.toList.length 0 b.toList.length
      (by omega) (by omega)
    have hsum : 0 < a.toList.length + b.toList.length := by omega
    have h2M : 2 * matchedTotal a.toList b.toList 0 a.toList.length 0 b.toList.length
        (a.toList.length + b.toList.length + 1) ≤ a.toList.length + b.toList.length := by
      omega
    constructor
    · positivity
    · rw [div_le_one (by exact_mod_cast hsum)]
      exact_mod_cast h2M
